import Mathlib

/-!
Shallow embedding of `tabbycat/draw/models.py`: the conflict-detection and
result-reconciliation engine of a debate tournament scheduler.

External collaborators (history provider, adjudicator-conflict predicate,
venue-conflict function, ballot-equality predicate) are parameters of the
embedded functions, matching their use in the source.
-/

namespace Tabbycat

/-- A participant team, referenced by identity; carries its institution
identity and display name (`participants.models.Team`). -/
structure Team where
  id : Nat
  institution_id : Nat
  short_name : String
deriving DecidableEq, Repr

/-- An adjudicator, referenced by name (`participants.models.Adjudicator`). -/
structure Adjudicator where
  name : String
deriving DecidableEq, Repr

/-- Django ORM `QuerySet.get` failure modes: `DoesNotExist` when no row
matches, `MultipleObjectsReturned` when several do. -/
inductive LookupError where
  | doesNotExist
  | multipleObjectsReturned
deriving DecidableEq, Repr

/-- Django ORM `QuerySet.get`: exactly one matching row or an error. -/
def objects_get {α : Type} : List α → Except LookupError α
  | [] => .error .doesNotExist
  | [a] => .ok a
  | _ :: _ :: _ => .error .multipleObjectsReturned

/-! ## Conflict detector (`Debate.draw_conflicts`, `Debate.adjudicator_conflicts`,
`Debate.all_conflicts`)

The view of a well-formed debate used by conflict detection: both side
lookups succeed, and the adjudicator allocation is the ordered list of
(role, adjudicator) pairs iterated by `self.adjudicators`. -/
structure ConflictDebate where
  aff_team : Team
  neg_team : Team
  round_seq : Nat
  adjudicators : List (String × Adjudicator)

/-- Rendering of the `Conflict` object built in `Debate.adjudicator_conflicts`
(`'Adjudicator %s conflicts with %s'`). -/
def conflictStr (adj : Adjudicator) (team : Team) : String :=
  "Adjudicator " ++ adj.name ++ " conflicts with " ++ team.short_name

/-- `Debate.draw_conflicts`: the history provider `seen` is
`self.aff_team.seen(self.neg_team, before_round=self.round.seq)`, an external
collaborator passed as a parameter. Mirrors the imperative appends: first the
history message (at most one), then the same-institution message. -/
def draw_conflicts (seen : Team → Team → Nat → Nat) (d : ConflictDebate) :
    List String :=
  let history := seen d.aff_team d.neg_team d.round_seq
  let d1 : List String :=
    if history = 1 then ["Teams have met once"]
    else if history = 2 then ["Teams have met twice"]
    else if history > 2 then ["Teams have met " ++ toString history ++ " times"]
    else []
  let d2 : List String :=
    if d.aff_team.institution_id = d.neg_team.institution_id then
      d1 ++ ["Teams are from the same institution"]
    else d1
  d2

/-- `Debate.adjudicator_conflicts`: for each (role, adjudicator) pair in
allocation order, test the external predicate `conflict_with` against the
affirmative team then the negative team, emitting one descriptor per hit. -/
def adjudicator_conflicts (conflict_with : Adjudicator → Team → Bool)
    (d : ConflictDebate) : List String :=
  d.adjudicators.flatMap fun p =>
    ([d.aff_team, d.neg_team].filter fun team => conflict_with p.2 team).map
      fun team => conflictStr p.2 team

/-- `Debate.all_conflicts`: `draw_conflicts + adjudicator_conflicts +
venue_conflicts(self)`, the venue-conflict function being external. -/
def all_conflicts (seen : Team → Team → Nat → Nat)
    (conflict_with : Adjudicator → Team → Bool)
    (venue_conflicts : ConflictDebate → List String)
    (d : ConflictDebate) : List String :=
  draw_conflicts seen d ++ adjudicator_conflicts conflict_with d ++
    venue_conflicts d

/-- The history-conflict category of the report, as a function of the meeting
count reported by the history provider. -/
def historyMessages (n : Nat) : List String :=
  if n = 1 then ["Teams have met once"]
  else if n = 2 then ["Teams have met twice"]
  else if n > 2 then ["Teams have met " ++ toString n ++ " times"]
  else []

/-- The institution-conflict category of the report. -/
def institutionMessages (d : ConflictDebate) : List String :=
  if d.aff_team.institution_id = d.neg_team.institution_id then
    ["Teams are from the same institution"]
  else []

/-! ## Result resolver (`DebateTeam.win`) -/

/-- One `TeamScore` row as seen from a `DebateTeam`'s `teamscore_set`: the
confirmation status of its parent `BallotSubmission` and its win flag. -/
structure TeamScoreRec where
  ballotConfirmed : Bool
  win : Bool
deriving DecidableEq, Repr

/-- `DebateTeam.win`:
`self.teamscore_set.get(ballot_submission__confirmed=True).win`, catching
`ObjectDoesNotExist` (returning `None`); `MultipleObjectsReturned` is not
caught and escapes. -/
def DebateTeam_win (scores : List TeamScoreRec) :
    Except LookupError (Option Bool) :=
  match objects_get (scores.filter fun t => t.ballotConfirmed) with
  | .ok t => .ok (some t.win)
  | .error .doesNotExist => .ok none
  | .error .multipleObjectsReturned => .error .multipleObjectsReturned

/-- The two debate sides whose results the resolver is queried for. -/
inductive Side where
  | aff
  | neg
deriving DecidableEq, Repr

/-- One `BallotSubmission` together with the win flags of the `TeamScore`
rows it produces for the two sides. -/
structure BallotRec where
  version : Nat
  confirmed : Bool
  discarded : Bool
  affWin : Bool
  negWin : Bool
deriving DecidableEq, Repr

/-- A debate as seen by the result resolver: its submitted ballots. -/
structure ResultDebate where
  ballots : List BallotRec
deriving DecidableEq, Repr

/-- The `teamscore_set` of the `DebateTeam` at `side`: one `TeamScore` per
ballot, carrying that ballot's confirmation status and that side's win flag. -/
def teamscores (d : ResultDebate) (side : Side) : List TeamScoreRec :=
  d.ballots.map fun b =>
    { ballotConfirmed := b.confirmed
      win := match side with | .aff => b.affWin | .neg => b.negWin }

/-- Resolving a side's result: `DebateTeam.win` on that side's scores. -/
def resolve (d : ResultDebate) (side : Side) : Except LookupError (Option Bool) :=
  DebateTeam_win (teamscores d side)

/-! ## Side assignment (`Debate.aff_team`, `Debate.neg_team`,
`Debate.get_team`, `Debate.get_side`, `Debate.__contains__`) -/

/-- Team position values of `DebateTeam.POSITION_CHOICES`. -/
inductive Position where
  | affirmative
  | negative
  | unallocated
deriving DecidableEq, Repr

/-- One `DebateTeam` row: one team at one position in one debate. -/
structure DebateTeamRow where
  team : Team
  position : Position
deriving DecidableEq, Repr

/-- A debate as seen by side assignment: its `debateteam_set`. -/
structure SideDebate where
  debateteams : List DebateTeamRow
deriving DecidableEq, Repr

/-- `Debate.aff_team`: `Team.objects.get(debateteam__debate=self,
debateteam__position=POSITION_AFFIRMATIVE)`. Django `get` raises
`DoesNotExist` on zero matching rows and `MultipleObjectsReturned` on
several. -/
def SideDebate.aff_team (d : SideDebate) : Except LookupError Team :=
  objects_get
    ((d.debateteams.filter fun r => r.position = Position.affirmative).map
      fun r => r.team)

/-- `Debate.neg_team`, symmetric to `Debate.aff_team`. -/
def SideDebate.neg_team (d : SideDebate) : Except LookupError Team :=
  objects_get
    ((d.debateteams.filter fun r => r.position = Position.negative).map
      fun r => r.team)

/-- `Debate.get_team(side)`: the dynamic dispatch `getattr(self,
'%s_team' % side)` restricted to the two competitive sides. -/
def SideDebate.get_team (d : SideDebate) : Side → Except LookupError Team
  | .aff => d.aff_team
  | .neg => d.neg_team

/-- `Debate.get_side(team)`: tests `self.aff_team == team` first, then
`self.neg_team == team`, else returns `None`; an exception raised by either
side lookup propagates. -/
def SideDebate.get_side (d : SideDebate) (team : Team) :
    Except LookupError (Option Side) := do
  let a ← d.aff_team
  if a = team then
    pure (some Side.aff)
  else
    let n ← d.neg_team
    if n = team then pure (some Side.neg) else pure none

/-- `Debate.__contains__(team)`: `team in (self.aff_team, self.neg_team)`.
Building the tuple evaluates both side lookups before membership is tested,
so an exception from either lookup propagates. -/
def SideDebate.contains (d : SideDebate) (team : Team) :
    Except LookupError Bool := do
  let a ← d.aff_team
  let n ← d.neg_team
  pure (decide (team = a) || decide (team = n))

/-- The `DebateTeam` rows of the debate at the position matching `side`. -/
def sideRows (d : SideDebate) : Side → List DebateTeamRow
  | .aff => d.debateteams.filter fun r => r.position = Position.affirmative
  | .neg => d.debateteams.filter fun r => r.position = Position.negative

/-! ## Ballot equivalence grouper (`Debate.identical_ballotsubs_dict`) -/

/-- A `BallotSubmission` as seen by the grouper: its per-debate version
number and discard flag. The pairwise equality test `is_identical` is an
external collaborator passed as a parameter. -/
structure Ballot where
  version : Nat
  discarded : Bool
deriving DecidableEq, Repr

/-- `self.ballotsubmission_set.exclude(discarded=True).order_by('version')`. -/
def ballotsubsOf (ballots : List Ballot) : List Ballot :=
  (ballots.filter fun b => !b.discarded).insertionSort
    fun a b => a.version ≤ b.version

/-- `result[b].append(v)`: append `v` to the list at key `b`. -/
def appendTo (res : List (Ballot × List Nat)) (b : Ballot) (v : Nat) :
    List (Ballot × List Nat) :=
  res.map fun p => if p.1 = b then (p.1, p.2 ++ [v]) else p

/-- Apply a sequence of `(key, version)` append operations in order. -/
def applyUpdates (res : List (Ballot × List Nat)) (us : List (Ballot × Nat)) :
    List (Ballot × List Nat) :=
  us.foldl (fun r u => appendTo r u.1 u.2) res

/-- `Debate.identical_ballotsubs_dict`: keys are the non-discarded ballot
submissions in version order (an association list standing for the Python
dict, whose keys preserve insertion order); for every pair where the second
version is greater, a positive `is_identical` test appends each ballot's
version to the other's entry; finally every entry is sorted. -/
def identical_ballotsubs_dict (ident : Ballot → Ballot → Bool)
    (ballots : List Ballot) : List (Ballot × List Nat) :=
  let ballotsubs := ballotsubsOf ballots
  let init := ballotsubs.map fun b => (b, ([] : List Nat))
  let result := ballotsubs.foldl
    (fun res ballotsub1 =>
      (ballotsubs.filter fun ballotsub2 =>
          ballotsub1.version < ballotsub2.version).foldl
        (fun res2 ballotsub2 =>
          if ident ballotsub1 ballotsub2 then
            appendTo (appendTo res2 ballotsub1 ballotsub2.version)
              ballotsub2 ballotsub1.version
          else res2)
        res)
    init
  result.map fun p => (p.1, p.2.insertionSort (· ≤ ·))

/-- The two append operations a positive `is_identical(b1, b2)` test
produces. -/
def pairUpdates (ident : Ballot → Ballot → Bool) (b1 b2 : Ballot) :
    List (Ballot × Nat) :=
  if ident b1 b2 then [(b1, b2.version), (b2, b1.version)] else []

/-- All append operations performed by the double loop, in execution
order. -/
def allUpdates (ident : Ballot → Ballot → Bool) (ballots : List Ballot) :
    List (Ballot × Nat) :=
  (ballotsubsOf ballots).flatMap fun b1 =>
    ((ballotsubsOf ballots).filter fun b2 => b1.version < b2.version).flatMap
      fun b2 => pairUpdates ident b1 b2

/-- The versions appended to the entry of `b`, in execution order. -/
def valList (ident : Ballot → Ballot → Bool) (ballots : List Ballot)
    (b : Ballot) : List Nat :=
  ((allUpdates ident ballots).filter fun u => u.1 = b).map fun u => u.2

/-- Grouping by the full symmetric closure over all ordered pairs, following
the spec's words: every ordered pair of distinct non-discarded ballots is
considered, and the second ballot's version is recorded under the first's
entry when either direction of the predicate holds. -/
def identical_ballotsubs_dict_closure (ident : Ballot → Ballot → Bool)
    (ballots : List Ballot) : List (Ballot × List Nat) :=
  (ballotsubsOf ballots).map fun b1 =>
    (b1, (((ballotsubsOf ballots).filter fun b2 =>
        decide (b2.version ≠ b1.version) && (ident b1 b2 || ident b2 b1)).map
      fun b2 => b2.version).insertionSort (· ≤ ·))

end Tabbycat

namespace Tabbycat

/-- C1: `all_conflicts` is the concatenation, in order, of history conflicts,
the institution conflict, adjudicator conflicts and venue conflicts; its
length is the sum of the four category counts (history and institution each
contributing 0 or 1) with no deduplication, and it is empty iff no conflict
of any kind exists. -/
theorem all_conflicts_concatenation
    (seen : Team → Team → Nat → Nat) (conflict_with : Adjudicator → Team → Bool)
    (venue_conflicts : ConflictDebate → List String) (d : ConflictDebate) :
    all_conflicts seen conflict_with venue_conflicts d =
      historyMessages (seen d.aff_team d.neg_team d.round_seq) ++
      institutionMessages d ++ adjudicator_conflicts conflict_with d ++
      venue_conflicts d ∧
    (all_conflicts seen conflict_with venue_conflicts d).length =
      (historyMessages (seen d.aff_team d.neg_team d.round_seq)).length +
      (institutionMessages d).length +
      (adjudicator_conflicts conflict_with d).length +
      (venue_conflicts d).length ∧
    (historyMessages (seen d.aff_team d.neg_team d.round_seq)).length ≤ 1 ∧
    (institutionMessages d).length ≤ 1 ∧
    (all_conflicts seen conflict_with venue_conflicts d = [] ↔
      historyMessages (seen d.aff_team d.neg_team d.round_seq) = [] ∧
      institutionMessages d = [] ∧
      adjudicator_conflicts conflict_with d = [] ∧ venue_conflicts d = []) := by
  have hdraw : draw_conflicts seen d =
      historyMessages (seen d.aff_team d.neg_team d.round_seq) ++
        institutionMessages d := by
    simp only [draw_conflicts, historyMessages, institutionMessages]
    split_ifs <;> simp
  have hmain : all_conflicts seen conflict_with venue_conflicts d =
      historyMessages (seen d.aff_team d.neg_team d.round_seq) ++
        institutionMessages d ++ adjudicator_conflicts conflict_with d ++
        venue_conflicts d := by
    unfold all_conflicts
    rw [hdraw]
  refine ⟨hmain, ?_, ?_, ?_, ?_⟩
  · rw [hmain]; simp [Nat.add_assoc]
  · unfold historyMessages; split_ifs <;> simp
  · unfold institutionMessages; split_ifs <;> simp
  · rw [hmain]; simp [List.append_eq_nil, and_assoc]

/-- C2: the history part of the conflict report as a function of the meeting
count `n` reported by the history provider: no message for `n = 0`,
"Teams have met once" for `n = 1`, "Teams have met twice" for `n = 2`, and
"Teams have met n times" for `n > 2` — always at most one history message,
prefixed to the (at most one) institution message. -/
theorem draw_conflicts_history_cases
    (seen : Team → Team → Nat → Nat) (d : ConflictDebate) (n : Nat)
    (h : seen d.aff_team d.neg_team d.round_seq = n) :
    (n = 0 → draw_conflicts seen d = institutionMessages d) ∧
    (n = 1 → draw_conflicts seen d =
      "Teams have met once" :: institutionMessages d) ∧
    (n = 2 → draw_conflicts seen d =
      "Teams have met twice" :: institutionMessages d) ∧
    (2 < n → draw_conflicts seen d =
      ("Teams have met " ++ toString n ++ " times") :: institutionMessages d) ∧
    (historyMessages n).length ≤ 1 := by
  have hdraw : draw_conflicts seen d =
      historyMessages n ++ institutionMessages d := by
    simp only [draw_conflicts, historyMessages, institutionMessages]
    rw [h]
    split_ifs <;> simp
  refine ⟨?_, ?_, ?_, ?_, ?_⟩
  · intro hn; subst hn; simpa [historyMessages] using hdraw
  · intro hn; subst hn; simpa [historyMessages] using hdraw
  · intro hn; subst hn; simpa [historyMessages] using hdraw
  · intro hn
    have h1 : n ≠ 1 := by omega
    have h2 : n ≠ 2 := by omega
    rw [hdraw]
    simp [historyMessages, h1, h2, hn]
  · unfold historyMessages; split_ifs <;> simp

/-- Witness for C2 at a concrete input: a history count of 5 yields exactly
"Teams have met 5 times" before the institution message. -/
theorem draw_conflicts_history_cases_witness :
    draw_conflicts (fun _ _ _ => 5)
      { aff_team := ⟨1, 10, "A"⟩, neg_team := ⟨2, 20, "B"⟩,
        round_seq := 3, adjudicators := [] } =
      ["Teams have met 5 times"] := by
  have h := draw_conflicts_history_cases (fun _ _ _ => 5)
    { aff_team := ⟨1, 10, "A"⟩, neg_team := ⟨2, 20, "B"⟩,
      round_seq := 3, adjudicators := [] } 5 rfl
  have h5 := h.2.2.2.1 (by omega)
  rw [h5]
  decide

/-- C3: with no confirmed ballot submission, resolving either side returns
`UNKNOWN` (`None`) as a normal value — the computation succeeds, it does not
raise. -/
theorem resolve_no_confirmed_unknown (d : ResultDebate)
    (h : ∀ b ∈ d.ballots, b.confirmed = false) (side : Side) :
    resolve d side = .ok none := by
  have hfilter : (teamscores d side).filter (fun t => t.ballotConfirmed) = [] := by
    rw [List.filter_eq_nil_iff]
    intro t ht
    unfold teamscores at ht
    rw [List.mem_map] at ht
    obtain ⟨b, hb, rfl⟩ := ht
    simpa using h b hb
  unfold resolve DebateTeam_win
  rw [hfilter]
  rfl

/-- Witness for C3 at a concrete input: one unconfirmed ballot, both sides
resolve to `UNKNOWN`. -/
theorem resolve_no_confirmed_unknown_witness :
    resolve ⟨[⟨1, false, false, true, false⟩]⟩ Side.aff = .ok none ∧
    resolve ⟨[⟨1, false, false, true, false⟩]⟩ Side.neg = .ok none := by
  constructor
  · exact resolve_no_confirmed_unknown ⟨[⟨1, false, false, true, false⟩]⟩
      (by intro b hb; simp at hb; rw [hb]) Side.aff
  · exact resolve_no_confirmed_unknown ⟨[⟨1, false, false, true, false⟩]⟩
      (by intro b hb; simp at hb; rw [hb]) Side.neg

/-- Counterexample to C4 as stated: a debate whose single ballot is
confirmed, non-discarded, with the AFFIRMATIVE TeamScore's win flag true —
but whose NEGATIVE TeamScore's win flag is also true. The resolver reads the
negative side's own flag, so resolving NEGATIVE yields WON, not LOST. -/
theorem resolve_aff_win_neg_not_lost :
    (ResultDebate.mk [⟨1, true, false, true, true⟩]).ballots.filter
        (fun b => b.confirmed && !b.discarded) =
      [⟨1, true, false, true, true⟩] ∧
    resolve ⟨[⟨1, true, false, true, true⟩]⟩ Side.aff = .ok (some true) ∧
    resolve ⟨[⟨1, true, false, true, true⟩]⟩ Side.neg = .ok (some true) ∧
    resolve ⟨[⟨1, true, false, true, true⟩]⟩ Side.neg ≠ .ok (some false) := by
  refine ⟨rfl, rfl, rfl, ?_⟩
  rw [show resolve ⟨[⟨1, true, false, true, true⟩]⟩ Side.neg =
    Except.ok (some true) from rfl]
  simp

/-- C4 amended: when the confirmed ballots of the debate are exactly one
ballot, non-discarded, whose AFFIRMATIVE TeamScore has win = true and whose
NEGATIVE TeamScore has win = false, resolving AFFIRMATIVE yields WON and
resolving NEGATIVE yields LOST. -/
theorem resolve_single_confirmed (d : ResultDebate) (b : BallotRec)
    (hconf : d.ballots.filter (fun b => b.confirmed) = [b])
    (_hdisc : b.discarded = false) (haff : b.affWin = true)
    (hneg : b.negWin = false) :
    resolve d Side.aff = .ok (some true) ∧
    resolve d Side.neg = .ok (some false) := by
  have key : ∀ side : Side,
      (teamscores d side).filter (fun t => t.ballotConfirmed) =
        [{ ballotConfirmed := b.confirmed,
           win := match side with | .aff => b.affWin | .neg => b.negWin }] := by
    intro side
    unfold teamscores
    rw [List.filter_map]
    have hcomp : ((fun t : TeamScoreRec => t.ballotConfirmed) ∘
        (fun b : BallotRec =>
          ({ ballotConfirmed := b.confirmed,
             win := match side with | .aff => b.affWin | .neg => b.negWin } :
            TeamScoreRec))) = fun b : BallotRec => b.confirmed := rfl
    rw [hcomp, hconf]
    rfl
  constructor
  · unfold resolve DebateTeam_win
    rw [key Side.aff]
    simp [objects_get, haff]
  · unfold resolve DebateTeam_win
    rw [key Side.neg]
    simp [objects_get, hneg]

/-- Witness for the amended C4 at a concrete input. -/
theorem resolve_single_confirmed_witness :
    resolve ⟨[⟨1, true, false, true, false⟩]⟩ Side.aff = .ok (some true) ∧
    resolve ⟨[⟨1, true, false, true, false⟩]⟩ Side.neg = .ok (some false) :=
  resolve_single_confirmed ⟨[⟨1, true, false, true, false⟩]⟩
    ⟨1, true, false, true, false⟩ (by decide) rfl rfl rfl

theorem except_ok_bind {ε α β : Type} (a : α) (f : α → Except ε β) :
    (Except.ok a : Except ε α) >>= f = f a := rfl

theorem except_error_bind {ε α β : Type} (e : ε) (f : α → Except ε β) :
    (Except.error e : Except ε α) >>= f = Except.error e := rfl

theorem except_pure {ε α : Type} (a : α) : (pure a : Except ε α) = Except.ok a :=
  rfl

theorem objects_get_of_len_zero {α : Type} (l : List α) (h : l.length = 0) :
    objects_get l = .error .doesNotExist := by
  cases l with
  | nil => rfl
  | cons a t => simp at h

theorem objects_get_of_len_ge_two {α : Type} (l : List α) (h : 2 ≤ l.length) :
    objects_get l = .error .multipleObjectsReturned := by
  match l with
  | [] => simp at h
  | [a] => simp at h
  | a :: b :: t => rfl

/-- C8: for either competitive side, `get_team` fails with `DoesNotExist`
when no assignment row exists at that side, and with the distinct error
`MultipleObjectsReturned` — never silently picking one — when more than one
exists. -/
theorem get_team_zero_or_multiple (d : SideDebate) (side : Side) :
    ((sideRows d side).length = 0 →
      d.get_team side = .error .doesNotExist) ∧
    (2 ≤ (sideRows d side).length →
      d.get_team side = .error .multipleObjectsReturned) ∧
    LookupError.doesNotExist ≠ LookupError.multipleObjectsReturned := by
  refine ⟨?_, ?_, by simp⟩
  · intro h0
    cases side <;>
      simp only [SideDebate.get_team, SideDebate.aff_team, SideDebate.neg_team] <;>
      apply objects_get_of_len_zero <;>
      rw [List.length_map] <;>
      simpa [sideRows] using h0
  · intro h2
    cases side <;>
      simp only [SideDebate.get_team, SideDebate.aff_team, SideDebate.neg_team] <;>
      apply objects_get_of_len_ge_two <;>
      rw [List.length_map] <;>
      simpa [sideRows] using h2

/-- Witness for C8 at concrete inputs: a debate with no affirmative row and
two negative rows. -/
theorem get_team_zero_or_multiple_witness :
    SideDebate.get_team
        ⟨[⟨⟨1, 10, "A"⟩, Position.negative⟩, ⟨⟨2, 20, "B"⟩, Position.negative⟩]⟩
        Side.aff = .error .doesNotExist ∧
    SideDebate.get_team
        ⟨[⟨⟨1, 10, "A"⟩, Position.negative⟩, ⟨⟨2, 20, "B"⟩, Position.negative⟩]⟩
        Side.neg = .error .multipleObjectsReturned := by
  constructor
  · exact (get_team_zero_or_multiple
      ⟨[⟨⟨1, 10, "A"⟩, Position.negative⟩, ⟨⟨2, 20, "B"⟩, Position.negative⟩]⟩
      Side.aff).1 (by decide)
  · exact (get_team_zero_or_multiple
      ⟨[⟨⟨1, 10, "A"⟩, Position.negative⟩, ⟨⟨2, 20, "B"⟩, Position.negative⟩]⟩
      Side.neg).2.1 (by decide)

/-- C9: on a well-formed debate (exactly one affirmative and one negative
row), `get_side` returns the occupied side for the teams of those rows and
`none` — not an error — for any other team; and the affirmative team
obtained from `get_team` is a member of the debate. -/
theorem wellformed_get_side_contains (d : SideDebate) (ra rn : DebateTeamRow)
    (ha : d.debateteams.filter (fun r => r.position = Position.affirmative) = [ra])
    (hn : d.debateteams.filter (fun r => r.position = Position.negative) = [rn]) :
    d.get_team Side.aff = .ok ra.team ∧
    d.get_side ra.team = .ok (some Side.aff) ∧
    (∀ t : Team, t ≠ ra.team → t = rn.team →
      d.get_side t = .ok (some Side.neg)) ∧
    (∀ t : Team, t ≠ ra.team → t ≠ rn.team → d.get_side t = .ok none) ∧
    d.contains ra.team = .ok true := by
  have haff : d.aff_team = .ok ra.team := by
    unfold SideDebate.aff_team
    rw [ha]
    rfl
  have hneg : d.neg_team = .ok rn.team := by
    unfold SideDebate.neg_team
    rw [hn]
    rfl
  refine ⟨?_, ?_, ?_, ?_, ?_⟩
  · simpa [SideDebate.get_team] using haff
  · unfold SideDebate.get_side
    rw [haff, except_ok_bind, if_pos rfl]
    rfl
  · intro t hta htn
    unfold SideDebate.get_side
    have h1 : ¬(ra.team = t) := fun hh => hta hh.symm
    rw [haff, except_ok_bind, if_neg h1, hneg, except_ok_bind,
      if_pos htn.symm]
    rfl
  · intro t hta htn
    unfold SideDebate.get_side
    have h1 : ¬(ra.team = t) := fun hh => hta hh.symm
    have h2 : ¬(rn.team = t) := fun hh => htn hh.symm
    rw [haff, except_ok_bind, if_neg h1, hneg, except_ok_bind, if_neg h2]
    rfl
  · unfold SideDebate.contains
    rw [haff, except_ok_bind, hneg, except_ok_bind, except_pure]
    simp

/-- Witness for C9 at a concrete well-formed debate. -/
theorem wellformed_get_side_contains_witness :
    SideDebate.get_side
        ⟨[⟨⟨1, 10, "A"⟩, Position.affirmative⟩, ⟨⟨2, 20, "B"⟩, Position.negative⟩]⟩
        ⟨2, 20, "B"⟩ = .ok (some Side.neg) ∧
    SideDebate.get_side
        ⟨[⟨⟨1, 10, "A"⟩, Position.affirmative⟩, ⟨⟨2, 20, "B"⟩, Position.negative⟩]⟩
        ⟨3, 30, "C"⟩ = .ok none ∧
    SideDebate.contains
        ⟨[⟨⟨1, 10, "A"⟩, Position.affirmative⟩, ⟨⟨2, 20, "B"⟩, Position.negative⟩]⟩
        ⟨1, 10, "A"⟩ = .ok true := by
  have h := wellformed_get_side_contains
    ⟨[⟨⟨1, 10, "A"⟩, Position.affirmative⟩, ⟨⟨2, 20, "B"⟩, Position.negative⟩]⟩
    ⟨⟨1, 10, "A"⟩, Position.affirmative⟩ ⟨⟨2, 20, "B"⟩, Position.negative⟩
    (by decide) (by decide)
  exact ⟨h.2.2.1 ⟨2, 20, "B"⟩ (by decide) rfl, h.2.2.2.1 ⟨3, 30, "C"⟩
    (by decide) (by decide), h.2.2.2.2⟩

/-- Counterexample to C10 as stated: on a debate with an affirmative row but
no negative row, `get_side` queried with the affirmative team returns the
affirmative side normally instead of propagating the missing-assignment
error. -/
theorem get_side_missing_neg_returns_aff :
    (SideDebate.debateteams ⟨[⟨⟨1, 10, "A"⟩, Position.affirmative⟩]⟩).filter
        (fun r => r.position = Position.negative) = [] ∧
    SideDebate.get_side ⟨[⟨⟨1, 10, "A"⟩, Position.affirmative⟩]⟩ ⟨1, 10, "A"⟩ =
      .ok (some Side.aff) := by
  exact ⟨rfl, rfl⟩

/-- C10 amended: when the affirmative assignment is missing, both
`__contains__` and `get_side` propagate the lookup error; when only the
negative assignment is missing, `__contains__` always propagates it, and
`get_side` propagates it except when the queried team is the affirmative
team, in which case it returns the affirmative side without consulting the
negative lookup. -/
theorem contains_get_side_propagation (d : SideDebate) (t : Team) :
    (d.debateteams.filter (fun r => r.position = Position.affirmative) = [] →
      d.contains t = .error .doesNotExist ∧
      d.get_side t = .error .doesNotExist) ∧
    (∀ ra : DebateTeamRow,
      d.debateteams.filter (fun r => r.position = Position.affirmative) = [ra] →
      d.debateteams.filter (fun r => r.position = Position.negative) = [] →
      d.contains t = .error .doesNotExist ∧
      (t ≠ ra.team → d.get_side t = .error .doesNotExist) ∧
      (t = ra.team → d.get_side t = .ok (some Side.aff))) := by
  constructor
  · intro h0
    have haff : d.aff_team = .error .doesNotExist := by
      unfold SideDebate.aff_team
      rw [h0]
      rfl
    constructor
    · unfold SideDebate.contains
      rw [haff, except_error_bind]
    · unfold SideDebate.get_side
      rw [haff, except_error_bind]
  · intro ra ha h0
    have haff : d.aff_team = .ok ra.team := by
      unfold SideDebate.aff_team
      rw [ha]
      rfl
    have hneg : d.neg_team = .error .doesNotExist := by
      unfold SideDebate.neg_team
      rw [h0]
      rfl
    refine ⟨?_, ?_, ?_⟩
    · unfold SideDebate.contains
      rw [haff, except_ok_bind, hneg, except_error_bind]
    · intro hta
      unfold SideDebate.get_side
      have h1 : ¬(ra.team = t) := fun hh => hta hh.symm
      rw [haff, except_ok_bind, if_neg h1, hneg, except_error_bind]
    · intro hta
      subst hta
      unfold SideDebate.get_side
      rw [haff, except_ok_bind, if_pos rfl]
      rfl

/-- Witness for the amended C10 at concrete inputs. -/
theorem contains_get_side_propagation_witness :
    SideDebate.contains ⟨[⟨⟨1, 10, "A"⟩, Position.affirmative⟩]⟩ ⟨1, 10, "A"⟩ =
      .error .doesNotExist ∧
    SideDebate.get_side ⟨[⟨⟨1, 10, "A"⟩, Position.affirmative⟩]⟩ ⟨2, 20, "B"⟩ =
      .error .doesNotExist := by
  have h := (contains_get_side_propagation
    ⟨[⟨⟨1, 10, "A"⟩, Position.affirmative⟩]⟩ ⟨1, 10, "A"⟩).2
    ⟨⟨1, 10, "A"⟩, Position.affirmative⟩ (by decide) (by decide)
  have h2 := (contains_get_side_propagation
    ⟨[⟨⟨1, 10, "A"⟩, Position.affirmative⟩]⟩ ⟨2, 20, "B"⟩).2
    ⟨⟨1, 10, "A"⟩, Position.affirmative⟩ (by decide) (by decide)
  exact ⟨h.1, h2.2.1 (by decide)⟩

theorem flatMap_congr_mem {α β : Type} :
    ∀ (l : List α) (f g : α → List β), (∀ a ∈ l, f a = g a) →
      l.flatMap f = l.flatMap g := by
  intro l f g
  induction l with
  | nil => intro _; rfl
  | cons a t ih =>
    intro h
    rw [List.flatMap_cons, List.flatMap_cons, h a (List.mem_cons_self a t),
      ih fun x hx => h x (List.mem_cons_of_mem a hx)]

theorem applyUpdates_append (res : List (Ballot × List Nat))
    (us vs : List (Ballot × Nat)) :
    applyUpdates res (us ++ vs) = applyUpdates (applyUpdates res us) vs := by
  unfold applyUpdates
  rw [List.foldl_append]

theorem applyUpdates_eq_map :
    ∀ (us : List (Ballot × Nat)) (res : List (Ballot × List Nat)),
      applyUpdates res us = res.map fun p =>
        (p.1, p.2 ++ (us.filter fun u => u.1 = p.1).map fun u => u.2) := by
  intro us
  induction us with
  | nil =>
    intro res
    unfold applyUpdates
    simp
  | cons u rest ih =>
    intro res
    have hstep : applyUpdates res (u :: rest) =
        applyUpdates (appendTo res u.1 u.2) rest := rfl
    rw [hstep, ih]
    unfold appendTo
    rw [List.map_map]
    apply List.map_congr_left
    intro p _
    by_cases h : p.1 = u.1
    · simp [Function.comp, List.filter_cons, h, List.append_assoc]
    · simp [Function.comp, List.filter_cons, h, Ne.symm h]

theorem foldl_applyUpdates {α : Type} (f : α → List (Ballot × Nat)) :
    ∀ (l : List α) (res : List (Ballot × List Nat)),
      l.foldl (fun r a => applyUpdates r (f a)) res =
        applyUpdates res (l.flatMap f) := by
  intro l
  induction l with
  | nil => intro _; rfl
  | cons a t ih =>
    intro res
    rw [List.foldl_cons, ih, List.flatMap_cons, applyUpdates_append]

theorem dict_characterization (ident : Ballot → Ballot → Bool)
    (ballots : List Ballot) :
    identical_ballotsubs_dict ident ballots =
      (ballotsubsOf ballots).map fun b =>
        (b, (valList ident ballots b).insertionSort (· ≤ ·)) := by
  have hinner : ∀ (b1 : Ballot) (res : List (Ballot × List Nat)),
      ((ballotsubsOf ballots).filter fun b2 => b1.version < b2.version).foldl
        (fun res2 b2 =>
          if ident b1 b2 then
            appendTo (appendTo res2 b1 b2.version) b2 b1.version
          else res2) res =
      applyUpdates res
        (((ballotsubsOf ballots).filter fun b2 =>
          b1.version < b2.version).flatMap fun b2 => pairUpdates ident b1 b2) := by
    intro b1 res
    have hfun : (fun (res2 : List (Ballot × List Nat)) (b2 : Ballot) =>
        if ident b1 b2 then
          appendTo (appendTo res2 b1 b2.version) b2 b1.version
        else res2) =
        fun res2 b2 => applyUpdates res2 (pairUpdates ident b1 b2) := by
      funext res2 b2
      unfold pairUpdates
      by_cases h : ident b1 b2
      · rw [if_pos h, if_pos h]; rfl
      · rw [if_neg h, if_neg h]; rfl
    rw [hfun, foldl_applyUpdates]
  have houter :
      (ballotsubsOf ballots).foldl
        (fun res b1 =>
          ((ballotsubsOf ballots).filter fun b2 =>
            b1.version < b2.version).foldl
            (fun res2 b2 =>
              if ident b1 b2 then
                appendTo (appendTo res2 b1 b2.version) b2 b1.version
              else res2) res)
        ((ballotsubsOf ballots).map fun b => (b, ([] : List Nat))) =
      applyUpdates ((ballotsubsOf ballots).map fun b => (b, ([] : List Nat)))
        (allUpdates ident ballots) := by
    have hfun2 : (fun (res : List (Ballot × List Nat)) (b1 : Ballot) =>
        ((ballotsubsOf ballots).filter fun b2 =>
          b1.version < b2.version).foldl
          (fun res2 b2 =>
            if ident b1 b2 then
              appendTo (appendTo res2 b1 b2.version) b2 b1.version
            else res2) res) =
        fun res b1 => applyUpdates res
          (((ballotsubsOf ballots).filter fun b2 =>
            b1.version < b2.version).flatMap fun b2 =>
              pairUpdates ident b1 b2) := by
      funext res b1
      exact hinner b1 res
    rw [hfun2, foldl_applyUpdates]
    rfl
  simp only [identical_ballotsubs_dict]
  rw [houter, applyUpdates_eq_map, List.map_map, List.map_map]
  apply List.map_congr_left
  intro b _
  simp [Function.comp, valList, allUpdates]

theorem mem_ballotsubsOf (ballots : List Ballot) (b : Ballot) :
    b ∈ ballotsubsOf ballots ↔ b ∈ ballots ∧ b.discarded = false := by
  unfold ballotsubsOf
  rw [List.mem_insertionSort, List.mem_filter]
  simp

theorem nodup_ballotsubsOf_versions (ballots : List Ballot)
    (hnd : (ballots.map Ballot.version).Nodup) :
    ((ballotsubsOf ballots).map Ballot.version).Nodup := by
  have hfil : ((ballots.filter fun b => !b.discarded).map Ballot.version).Nodup :=
    List.Nodup.sublist (List.Sublist.map _ (List.filter_sublist _)) hnd
  have hperm : List.Perm ((ballotsubsOf ballots).map Ballot.version)
      ((ballots.filter fun b => !b.discarded).map Ballot.version) :=
    List.Perm.map _ (List.perm_insertionSort _ _)
  exact (List.Perm.nodup_iff hperm).mpr hfil

theorem nodup_map_inj {α β : Type} {f : α → β} :
    ∀ (l : List α), (l.map f).Nodup →
      ∀ x ∈ l, ∀ y ∈ l, f x = f y → x = y := by
  intro l
  induction l with
  | nil => intro _ x hx; exact absurd hx (List.not_mem_nil x)
  | cons a t ih =>
    intro hnd x hx y hy hf
    rw [List.map_cons, List.nodup_cons] at hnd
    rcases List.mem_cons.mp hx with rfl | hx2
    · rcases List.mem_cons.mp hy with rfl | hy2
      · rfl
      · exact absurd (by rw [hf]; exact List.mem_map_of_mem f hy2) hnd.1
    · rcases List.mem_cons.mp hy with rfl | hy2
      · exact absurd (by rw [← hf]; exact List.mem_map_of_mem f hx2) hnd.1
      · exact ih hnd.2 x hx2 y hy2 hf

theorem mem_valList (ident : Ballot → Ballot → Bool) (ballots : List Ballot)
    (b : Ballot) (v : Nat) :
    v ∈ valList ident ballots b ↔
      ∃ x, x ∈ ballotsubsOf ballots ∧ ∃ y, y ∈ ballotsubsOf ballots ∧
        x.version < y.version ∧ ident x y = true ∧
        ((b = x ∧ v = y.version) ∨ (b = y ∧ v = x.version)) := by
  unfold valList allUpdates
  constructor
  · intro hv
    rw [List.mem_map] at hv
    obtain ⟨u, hu, huv⟩ := hv
    rw [List.mem_filter] at hu
    obtain ⟨humem, hukey⟩ := hu
    rw [List.mem_flatMap] at humem
    obtain ⟨x, hx, humem⟩ := humem
    rw [List.mem_flatMap] at humem
    obtain ⟨y, hy, humem⟩ := humem
    rw [List.mem_filter] at hy
    obtain ⟨hy, hxy⟩ := hy
    have hukey2 : u.1 = b := by simpa using hukey
    unfold pairUpdates at humem
    by_cases hid : ident x y = true
    · rw [if_pos hid] at humem
      rcases List.mem_cons.mp humem with rfl | humem
      · exact ⟨x, hx, y, hy, by simpa using hxy, hid,
          Or.inl ⟨hukey2.symm, huv.symm⟩⟩
      · rcases List.mem_cons.mp humem with rfl | hnil
        · exact ⟨x, hx, y, hy, by simpa using hxy, hid,
            Or.inr ⟨hukey2.symm, huv.symm⟩⟩
        · exact absurd hnil (List.not_mem_nil u)
    · rw [if_neg hid] at humem
      exact absurd humem (List.not_mem_nil u)
  · rintro ⟨x, hx, y, hy, hlt, hid, hcase⟩
    rw [List.mem_map]
    refine ⟨(b, v), ?_, rfl⟩
    rw [List.mem_filter]
    refine ⟨?_, by simp⟩
    rw [List.mem_flatMap]
    refine ⟨x, hx, ?_⟩
    rw [List.mem_flatMap]
    refine ⟨y, ?_, ?_⟩
    · rw [List.mem_filter]
      exact ⟨hy, by simpa using hlt⟩
    · unfold pairUpdates
      rw [if_pos hid]
      rcases hcase with ⟨rfl, rfl⟩ | ⟨rfl, rfl⟩ <;> simp

/-- C6: the grouping output is symmetric — for entries of two non-discarded
ballots, if the second's version appears in the identical-list recorded for
the first, then the first's version appears in the identical-list recorded
for the second. Versions are assumed pairwise distinct, as guaranteed by the
per-debate version sequence. -/
theorem identical_ballotsubs_dict_symmetric (ident : Ballot → Ballot → Bool)
    (ballots : List Ballot) (hnd : (ballots.map Ballot.version).Nodup)
    (b1 b2 : Ballot) (l1 l2 : List Nat)
    (h1 : (b1, l1) ∈ identical_ballotsubs_dict ident ballots)
    (h2 : (b2, l2) ∈ identical_ballotsubs_dict ident ballots)
    (hmem : b2.version ∈ l1) : b1.version ∈ l2 := by
  have hndbs := nodup_ballotsubsOf_versions ballots hnd
  rw [dict_characterization, List.mem_map] at h1 h2
  obtain ⟨a1, ha1, heq1⟩ := h1
  rw [Prod.mk.injEq] at heq1
  obtain ⟨rfl, rfl⟩ := heq1
  obtain ⟨a2, ha2, heq2⟩ := h2
  rw [Prod.mk.injEq] at heq2
  obtain ⟨rfl, rfl⟩ := heq2
  rw [List.mem_insertionSort, mem_valList] at hmem
  obtain ⟨x, hx, y, hy, hlt, hid, hcase⟩ := hmem
  rw [List.mem_insertionSort, mem_valList]
  rcases hcase with ⟨rfl, hv⟩ | ⟨rfl, hv⟩
  · have hyb2 : y = a2 := nodup_map_inj _ hndbs y hy a2 ha2 hv.symm
    exact ⟨a1, hx, y, hy, hlt, hid, Or.inr ⟨hyb2.symm, rfl⟩⟩
  · have hxb2 : x = a2 := nodup_map_inj _ hndbs x hx a2 ha2 hv.symm
    exact ⟨x, hx, a1, hy, hlt, hid, Or.inl ⟨hxb2.symm, rfl⟩⟩

/-- Witness for C6 at the spec's end-to-end example: versions 1, 2, 3, with
only 1 and 2 identical; symmetry transports 2 ∈ entry(1) to 1 ∈ entry(2). -/
theorem identical_ballotsubs_dict_symmetric_witness :
    (Ballot.mk 1 false, [2]) ∈ identical_ballotsubs_dict
      (fun a b => (a.version == 1 && b.version == 2) ||
        (a.version == 2 && b.version == 1))
      [⟨1, false⟩, ⟨2, false⟩, ⟨3, false⟩] ∧
    (Ballot.mk 2 false, [1]) ∈ identical_ballotsubs_dict
      (fun a b => (a.version == 1 && b.version == 2) ||
        (a.version == 2 && b.version == 1))
      [⟨1, false⟩, ⟨2, false⟩, ⟨3, false⟩] ∧
    (1 : Nat) ∈ ([1] : List Nat) := by
  refine ⟨by decide, by decide, ?_⟩
  exact identical_ballotsubs_dict_symmetric
    (fun a b => (a.version == 1 && b.version == 2) ||
      (a.version == 2 && b.version == 1))
    [⟨1, false⟩, ⟨2, false⟩, ⟨3, false⟩] (by decide)
    ⟨1, false⟩ ⟨2, false⟩ [2] [1] (by decide) (by decide) (by decide)

/-- C5: in the ballot grouping, every non-discarded ballot of the debate has
an entry; no entry's key is a discarded ballot and every recorded version is
the version of a non-discarded ballot; the output never depends on the
predicate's values at discarded ballots (they are never compared); and every
entry's version list is sorted ascending. -/
theorem identical_ballotsubs_dict_entries (ident : Ballot → Ballot → Bool)
    (ballots : List Ballot) :
    (∀ b ∈ ballots, b.discarded = false →
      ∃ l, (b, l) ∈ identical_ballotsubs_dict ident ballots) ∧
    (∀ p ∈ identical_ballotsubs_dict ident ballots, p.1.discarded = false) ∧
    (∀ p ∈ identical_ballotsubs_dict ident ballots, ∀ v ∈ p.2,
      ∃ b2 ∈ ballots, b2.discarded = false ∧ b2.version = v) ∧
    (∀ ident2 : Ballot → Ballot → Bool,
      (∀ a b : Ballot, a.discarded = false → b.discarded = false →
        ident a b = ident2 a b) →
      identical_ballotsubs_dict ident ballots =
        identical_ballotsubs_dict ident2 ballots) ∧
    (∀ p ∈ identical_ballotsubs_dict ident ballots, p.2.Sorted (· ≤ ·)) := by
  refine ⟨?_, ?_, ?_, ?_, ?_⟩
  · intro b hb hdisc
    refine ⟨(valList ident ballots b).insertionSort (· ≤ ·), ?_⟩
    rw [dict_characterization, List.mem_map]
    exact ⟨b, (mem_ballotsubsOf ballots b).mpr ⟨hb, hdisc⟩, rfl⟩
  · intro p hp
    rw [dict_characterization, List.mem_map] at hp
    obtain ⟨a, ha, heq⟩ := hp
    rw [← heq]
    exact ((mem_ballotsubsOf ballots a).mp ha).2
  · intro p hp v hv
    rw [dict_characterization, List.mem_map] at hp
    obtain ⟨a, ha, heq⟩ := hp
    rw [← heq] at hv
    rw [List.mem_insertionSort, mem_valList] at hv
    obtain ⟨x, hx, y, hy, _, _, hcase⟩ := hv
    rcases hcase with ⟨_, rfl⟩ | ⟨_, rfl⟩
    · obtain ⟨hy1, hy2⟩ := (mem_ballotsubsOf ballots y).mp hy
      exact ⟨y, hy1, hy2, rfl⟩
    · obtain ⟨hx1, hx2⟩ := (mem_ballotsubsOf ballots x).mp hx
      exact ⟨x, hx1, hx2, rfl⟩
  · intro ident2 hagree
    have hAll : allUpdates ident ballots = allUpdates ident2 ballots := by
      unfold allUpdates
      apply flatMap_congr_mem
      intro x hx
      apply flatMap_congr_mem
      intro y hy
      have hxd := ((mem_ballotsubsOf ballots x).mp hx).2
      have hyd := ((mem_ballotsubsOf ballots y).mp
        (List.mem_of_mem_filter hy)).2
      unfold pairUpdates
      rw [hagree x y hxd hyd]
    rw [dict_characterization, dict_characterization]
    apply List.map_congr_left
    intro b _
    simp [valList, hAll]
  · intro p hp
    rw [dict_characterization, List.mem_map] at hp
    obtain ⟨a, _, heq⟩ := hp
    rw [← heq]
    exact List.sorted_insertionSort _ _

/-- Witness for C5 at a concrete input: a single non-discarded ballot gets
an entry. -/
theorem identical_ballotsubs_dict_entries_witness :
    ∃ l, (Ballot.mk 3 false, l) ∈
      identical_ballotsubs_dict (fun _ _ => false) [⟨3, false⟩] :=
  (identical_ballotsubs_dict_entries (fun _ _ => false) [⟨3, false⟩]).1
    ⟨3, false⟩ (by decide) rfl

theorem flatMap_if_singleton {α β : Type} (p : α → Bool) (f : α → β) :
    ∀ l : List α,
      (l.flatMap fun a => if p a then [f a] else []) = (l.filter p).map f := by
  intro l
  induction l with
  | nil => rfl
  | cons a t ih =>
    rw [List.flatMap_cons, List.filter_cons, ih]
    by_cases h : p a = true
    · rw [if_pos h, if_pos h]
      rfl
    · rw [if_neg h, if_neg h]
      rfl

theorem flatMap_single_key {α β : Type} [DecidableEq α] (b : α) (L : List β) :
    ∀ l : List α, l.Nodup →
      (l.flatMap fun x => if x = b then L else []) = if b ∈ l then L else [] := by
  intro l
  induction l with
  | nil => intro _; simp
  | cons a t ih =>
    intro hnd
    obtain ⟨hna, hndt⟩ := List.nodup_cons.mp hnd
    rw [List.flatMap_cons, ih hndt]
    by_cases hab : a = b
    · subst hab
      rw [if_pos rfl, if_neg hna, if_pos (List.mem_cons_self a t)]
      simp
    · rw [if_neg hab]
      by_cases hbt : b ∈ t
      · rw [if_pos hbt, if_pos (List.mem_cons_of_mem a hbt)]
        simp
      · rw [if_neg hbt, if_neg (fun h => by
          rcases List.mem_cons.mp h with h1 | h1
          · exact hab h1.symm
          · exact hbt h1)]
        simp

theorem flatMap_append_perm {α β : Type} (f g : α → List β) :
    ∀ l : List α,
      List.Perm (l.flatMap fun a => f a ++ g a)
        (l.flatMap f ++ l.flatMap g) := by
  intro l
  induction l with
  | nil => simp
  | cons a t ih =>
    rw [List.flatMap_cons, List.flatMap_cons, List.flatMap_cons]
    refine (List.Perm.append_left (f a ++ g a) ih).trans ?_
    have e1 : (f a ++ g a) ++ (t.flatMap f ++ t.flatMap g) =
        f a ++ ((g a ++ t.flatMap f) ++ t.flatMap g) := by
      simp [List.append_assoc]
    have e2 : (f a ++ t.flatMap f) ++ (g a ++ t.flatMap g) =
        f a ++ ((t.flatMap f ++ g a) ++ t.flatMap g) := by
      simp [List.append_assoc]
    rw [e1, e2]
    exact List.Perm.append_left _
      (List.Perm.append_right _ List.perm_append_comm)

theorem filter_or_perm {α : Type} (p q : α → Bool)
    (hdisj : ∀ a, p a = true → q a = true → False) :
    ∀ l : List α,
      List.Perm (l.filter fun a => p a || q a) (l.filter p ++ l.filter q) := by
  intro l
  induction l with
  | nil => simp
  | cons a t ih =>
    rw [List.filter_cons, List.filter_cons, List.filter_cons]
    by_cases hp : p a = true
    · have hq : ¬(q a = true) := fun hq => hdisj a hp hq
      rw [if_pos (by simp [hp]), if_pos hp, if_neg hq]
      exact ih.cons a
    · by_cases hq : q a = true
      · rw [if_pos (by simp [hq]), if_neg hp, if_pos hq]
        exact (ih.cons a).trans List.perm_middle.symm
      · rw [if_neg (by simp [hp, hq]), if_neg hp, if_neg hq]
        exact ih

theorem insertionSort_eq_of_perm {l l2 : List Nat} (h : List.Perm l l2) :
    l.insertionSort (· ≤ ·) = l2.insertionSort (· ≤ ·) :=
  List.eq_of_perm_of_sorted
    (((List.perm_insertionSort _ l).trans h).trans
      (List.perm_insertionSort _ l2).symm)
    (List.sorted_insertionSort _ l) (List.sorted_insertionSort _ l2)

theorem valList_perm (ident : Ballot → Ballot → Bool) (ballots : List Ballot)
    (hnd : (ballots.map Ballot.version).Nodup) (b : Ballot)
    (hb : b ∈ ballotsubsOf ballots) :
    List.Perm (valList ident ballots b)
      ((((ballotsubsOf ballots).filter fun y => b.version < y.version).filter
          fun y => ident b y).map Ballot.version ++
        ((ballotsubsOf ballots).filter fun x =>
          decide (x.version < b.version) && ident x b).map Ballot.version) := by
  have hndbs : ((ballotsubsOf ballots).map Ballot.version).Nodup :=
    nodup_ballotsubsOf_versions ballots hnd
  have hndbs2 : (ballotsubsOf ballots).Nodup := List.Nodup.of_map _ hndbs
  have hstep1 : valList ident ballots b =
      (ballotsubsOf ballots).flatMap fun x =>
        ((ballotsubsOf ballots).filter fun y => x.version < y.version).flatMap
          fun y => ((pairUpdates ident x y).filter fun u => u.1 = b).map
            fun u => u.2 := by
    unfold valList allUpdates
    rw [List.filter_flatMap, List.map_flatMap]
    apply flatMap_congr_mem
    intro x _
    rw [List.filter_flatMap, List.map_flatMap]
  have pairContrib : ∀ x y : Ballot,
      ((pairUpdates ident x y).filter fun u => u.1 = b).map (fun u => u.2) =
        if ident x y then
          ((if x = b then [y.version] else []) ++
            (if y = b then [x.version] else []))
        else [] := by
    intro x y
    unfold pairUpdates
    by_cases hid : ident x y = true
    · rw [if_pos hid, if_pos hid]
      by_cases hx : x = b <;> by_cases hy : y = b <;>
        simp [List.filter_cons, hx, hy]
    · rw [if_neg hid, if_neg hid]
      rfl
  have hinner : ∀ x ∈ ballotsubsOf ballots,
      (((ballotsubsOf ballots).filter fun y => x.version < y.version).flatMap
        fun y => ((pairUpdates ident x y).filter fun u => u.1 = b).map
          fun u => u.2) =
      (if x = b then
        (((ballotsubsOf ballots).filter fun y => b.version < y.version).filter
          fun y => ident b y).map Ballot.version
      else []) ++
      (if decide (x.version < b.version) && ident x b then [x.version]
        else []) := by
    intro x _
    by_cases hxb : x = b
    · subst hxb
      have hcg : ∀ y ∈ (ballotsubsOf ballots).filter
          fun y2 => x.version < y2.version,
          ((pairUpdates ident x y).filter fun u => u.1 = x).map
            (fun u => u.2) =
          if ident x y then [y.version] else [] := by
        intro y hy
        have hylt : x.version < y.version := by
          simpa using (List.mem_filter.mp hy).2
        have hyb : ¬(y = x) := fun h => by
          subst h
          exact absurd hylt (Nat.lt_irrefl _)
        rw [pairContrib]
        by_cases hid : ident x y = true
        · simp [hid, hyb]
        · simp [hid]
      rw [flatMap_congr_mem _ _ _ hcg, flatMap_if_singleton]
      simp [Nat.lt_irrefl]
    · rw [if_neg hxb, List.nil_append]
      have hcg : ∀ y ∈ (ballotsubsOf ballots).filter
          fun y2 => x.version < y2.version,
          ((pairUpdates ident x y).filter fun u => u.1 = b).map
            (fun u => u.2) =
          if y = b then (if ident x b then [x.version] else []) else [] := by
        intro y _
        rw [pairContrib]
        by_cases hyb : y = b
        · subst hyb
          simp [hxb]
        · simp [hxb, hyb]
      rw [flatMap_congr_mem _ _ _ hcg,
        flatMap_single_key b _ _
          (List.Nodup.sublist (List.filter_sublist _) hndbs2)]
      by_cases hlt : x.version < b.version
      · rw [if_pos (List.mem_filter.mpr ⟨hb, by simpa using hlt⟩)]
        simp [hlt]
      · rw [if_neg (fun hmem =>
          hlt (by simpa using (List.mem_filter.mp hmem).2))]
        simp [hlt]
  rw [hstep1, flatMap_congr_mem _ _ _ hinner]
  refine (flatMap_append_perm _ _ _).trans ?_
  rw [flatMap_single_key _ _ _ hndbs2, if_pos hb, flatMap_if_singleton]

/-- C7: when the external predicate is symmetric (and versions are pairwise
distinct, per the data model), the grouping computed by testing only the
upper-triangular pair set equals the grouping obtained from the full
symmetric closure over all ordered pairs; moreover the grouping depends only
on the predicate's values at upper-triangular pairs — reverse pairs are
never consulted. -/
theorem identical_ballotsubs_dict_refines_closure
    (ident : Ballot → Ballot → Bool) (ballots : List Ballot)
    (hsym : ∀ a b : Ballot, ident a b = ident b a)
    (hnd : (ballots.map Ballot.version).Nodup) :
    identical_ballotsubs_dict ident ballots =
      identical_ballotsubs_dict_closure ident ballots ∧
    (∀ ident2 : Ballot → Ballot → Bool,
      (∀ a b : Ballot, a.version < b.version → ident a b = ident2 a b) →
      identical_ballotsubs_dict ident ballots =
        identical_ballotsubs_dict ident2 ballots) := by
  constructor
  · rw [dict_characterization]
    unfold identical_ballotsubs_dict_closure
    apply List.map_congr_left
    intro b hb
    apply congrArg (Prod.mk b)
    apply insertionSort_eq_of_perm
    refine (valList_perm ident ballots hnd b hb).trans ?_
    have hcl : ((ballotsubsOf ballots).filter fun b2 =>
        decide (b2.version ≠ b.version) && (ident b b2 || ident b2 b)) =
        (ballotsubsOf ballots).filter fun y =>
          (decide (b.version < y.version) && ident b y) ||
          (decide (y.version < b.version) && ident b y) := by
      apply List.filter_congr
      intro y _
      rcases Nat.lt_trichotomy y.version b.version with h | h | h
      · have hne : y.version ≠ b.version := Nat.ne_of_lt h
        have hnlt : ¬(b.version < y.version) := by omega
        simp [hne, h, hnlt, hsym y b]
      · simp [h, Nat.lt_irrefl]
      · have hne : y.version ≠ b.version := (Nat.ne_of_lt h).symm
        have hnlt : ¬(y.version < b.version) := by omega
        simp [hne, h, hnlt, hsym y b]
    rw [hcl]
    have hU : (((ballotsubsOf ballots).filter
        fun y => b.version < y.version).filter fun y => ident b y) =
        (ballotsubsOf ballots).filter
          fun y => decide (b.version < y.version) && ident b y := by
      rw [List.filter_filter]
      apply List.filter_congr
      intro y _
      exact Bool.and_comm _ _
    have hL : ((ballotsubsOf ballots).filter fun x =>
        decide (x.version < b.version) && ident x b) =
        (ballotsubsOf ballots).filter
          fun y => decide (y.version < b.version) && ident b y := by
      apply List.filter_congr
      intro y _
      rw [hsym y b]
    rw [hU, hL, ← List.map_append]
    refine (List.Perm.map _ ?_).symm
    exact filter_or_perm _ _
      (fun a h1 h2 => by
        simp at h1 h2
        omega)
      (ballotsubsOf ballots)
  · intro ident2 hupper
    have hAll : allUpdates ident ballots = allUpdates ident2 ballots := by
      unfold allUpdates
      apply flatMap_congr_mem
      intro x _
      apply flatMap_congr_mem
      intro y hy
      have hxy : x.version < y.version := by
        simpa using (List.mem_filter.mp hy).2
      unfold pairUpdates
      rw [hupper x y hxy]
    rw [dict_characterization, dict_characterization]
    apply List.map_congr_left
    intro b _
    simp [valList, hAll]

/-- Witness for C7 at a concrete input: a symmetric predicate (versions
summing to 3) over ballots with versions 1 and 2. -/
theorem identical_ballotsubs_dict_refines_closure_witness :
    identical_ballotsubs_dict (fun a b => a.version + b.version == 3)
        [⟨1, false⟩, ⟨2, false⟩] =
      identical_ballotsubs_dict_closure
        (fun a b => a.version + b.version == 3) [⟨1, false⟩, ⟨2, false⟩] :=
  (identical_ballotsubs_dict_refines_closure
    (fun a b => a.version + b.version == 3) [⟨1, false⟩, ⟨2, false⟩]
    (fun a b => by simp [Nat.add_comm]) (by decide)).1

end Tabbycat
